import Mathlib

/-!
Verification of the `Autotuning/tuner` package (helpers.py, tune_conf.py,
tune.py, output.py) against its natural-language specification.

Modelling conventions (shallow embedding):
* Python strings are modelled as `List Char` (`Str`); Lean's `String`
  operations do not reduce well in the kernel.
* Python numbers (int / float) are modelled as rationals `ℚ`, so arithmetic
  is exact; in particular "true floating-point division" is rational
  division and "truncating integer division" would be `Int.div`/`Nat.div`.
* Python functions that raise become `Option`/`Except` valued functions.
* Python `sorted` (stable ascending sort) is embedded as
  `List.insertionSort`; for the properties proved here only "some sorted
  permutation of the input" matters, and ties between numerically equal
  rationals are invisible.
-/

namespace Autotuning

/-- Python strings, modelled as lists of characters. -/
abbrev Str := List Char

/-- Embedding of Python `sorted` on a list of numbers (ascending order). -/
def pySorted (l : List ℚ) : List ℚ :=
  l.insertionSort (· ≤ ·)

/-- Core of `helpers.med` (helpers.py lines 181-193), after the argument has
been validated to be a non-empty list of numbers: sort, then take the middle
element (odd length) or the average of the two middle elements, computed
with true division by `2.0`.  Total function; callers guard emptiness. -/
def medCore (values : List ℚ) : ℚ :=
  let sorted_values := pySorted values
  let n := sorted_values.length
  if n % 2 = 1 then
    sorted_values.getD (n / 2) 0
  else
    let mid_idx := n / 2
    (sorted_values.getD (mid_idx - 1) 0 + sorted_values.getD mid_idx 0) / 2

/-- Embedding of `helpers.med` (helpers.py lines 146-193) on an
already-typechecked numeric list: `none` models the `ValueError` raised on
an empty list. -/
def med (values : List ℚ) : Option ℚ :=
  if values = [] then none else some (medCore values)

/-- Core of `helpers.avg` (helpers.py line 251): `float(sum(values)) /
len(values)`. -/
def avgCore (values : List ℚ) : ℚ :=
  values.sum / values.length

/-- Embedding of `helpers.avg` (helpers.py lines 215-251) on an
already-typechecked numeric list: `none` models the `ValueError` raised on
an empty list. -/
def avg (values : List ℚ) : Option ℚ :=
  if values = [] then none else some (avgCore values)

/-- Embedding of the Python built-in `min` on a list: first element, then a
left fold replacing the current minimum whenever a strictly smaller element
appears; `None` models the `ValueError` on an empty sequence. -/
def pyMin (values : List ℚ) : Option ℚ :=
  match values with
  | [] => none
  | x :: xs => some (xs.foldl (fun m v => if v < m then v else m) x)

/-- Embedding of the Python built-in `max` on a list. -/
def pyMax (values : List ℚ) : Option ℚ :=
  match values with
  | [] => none
  | x :: xs => some (xs.foldl (fun m v => if v > m then v else m) x)

/-- Aggregator type: reduces the repeated raw scores to one value. -/
abbrev Agg := List ℚ → Option ℚ

/-- The aggregator dispatch table wired by `tune_conf._setup_scoring`
(tune_conf.py lines 248-253): `{'max': max, 'min': min, 'med': med,
'avg': avg}`. -/
def aggregatorMap : List (Str × Agg) :=
  [("max".toList, pyMax), ("min".toList, pyMin),
   ("med".toList, med), ("avg".toList, avg)]

/-- Aggregator selection by tag, as performed by `_setup_scoring`
(tune_conf.py lines 255-257). -/
def selectAggregator (tag : Str) : Option Agg :=
  (aggregatorMap.find? (fun p => p.1 == tag)).map (·.2)

/-- Python values as seen by the aggregator type checks: a number
(int or float) or anything else. -/
inductive PyVal where
  | num (q : ℚ)
  | nonNum
deriving DecidableEq

/-- Result of `isinstance(val, (int, float))`. -/
def PyVal.isNumeric : PyVal → Bool
  | .num _ => true
  | .nonNum => false

/-- Python argument objects as seen by `med`/`avg`: a list of values, or a
non-list object. -/
inductive PyObj where
  | list (xs : List PyVal)
  | nonList
deriving DecidableEq

/-- The two exception kinds raised by `helpers.med` / `helpers.avg`. -/
inductive PyErr where
  | typeError
  | valueError
deriving DecidableEq

/-- Numeric contents of a value list. -/
def numsOf (xs : List PyVal) : List ℚ :=
  xs.filterMap (fun v => match v with | .num q => some q | .nonNum => none)

/-- Embedding of `helpers.med` including its argument validation
(helpers.py lines 170-193): `TypeError` if the argument is not a list or
has a non-numeric element, `ValueError` on the empty list, otherwise the
median. -/
def medChecked (o : PyObj) : Except PyErr ℚ :=
  match o with
  | .nonList => .error .typeError
  | .list xs =>
    if xs = [] then .error .valueError
    else if xs.any (fun v => !v.isNumeric) then .error .typeError
    else .ok (medCore (numsOf xs))

/-- Embedding of `helpers.avg` including its argument validation
(helpers.py lines 239-251). -/
def avgChecked (o : PyObj) : Except PyErr ℚ :=
  match o with
  | .nonList => .error .typeError
  | .list xs =>
    if xs = [] then .error .valueError
    else if xs.any (fun v => !v.isNumeric) then .error .typeError
    else .ok (avgCore (numsOf xs))

/-- Core fold of the legacy `helpers.crossproduct` (helpers.py lines
120-122): `cross_prod = [existing + [item] for item in sublist for existing
in cross_prod]` — the comprehension iterates `item` in the outer loop and
`existing` in the inner loop. -/
def crossproductCore {α : Type} (list_of_lists : List (List α)) : List (List α) :=
  list_of_lists.foldl
    (fun cross_prod sublist =>
      sublist.flatMap (fun item => cross_prod.map (fun existing => existing ++ [item])))
    [[]]

/-- Embedding of `helpers.crossproduct` (helpers.py lines 83-124): empty
outer list short-circuits to `[[]]`; an empty inner list raises
`ValueError` (the `isinstance` `TypeError` checks are unrepresentable in
this typed embedding); otherwise the legacy fold runs. -/
def crossproduct {α : Type} (list_of_lists : List (List α)) : Except PyErr (List (List α)) :=
  if list_of_lists.isEmpty then .ok [[]]
  else if list_of_lists.any (fun sub => sub.isEmpty) then .error .valueError
  else .ok (crossproductCore list_of_lists)

/-- Embedding of `helpers.crossproduct_itertools` (helpers.py lines
127-143): `itertools.product` enumerates combinations with the rightmost
factor varying fastest, which is this right fold; the early return `[[]]`
for an empty argument coincides with the fold. -/
def crossproduct_itertools {α : Type} (list_of_lists : List (List α)) : List (List α) :=
  list_of_lists.foldr
    (fun sublist acc => sublist.flatMap (fun item => acc.map (fun combo => item :: combo)))
    [[]]

/-- Embedding of the Python builtin `str.replace`: scan left to right; at
each position, if the (non-empty) pattern matches, emit the replacement and
continue after the matched segment, otherwise copy one character.  All
patterns used by this repository (`%%ID%%`, `%<name>%`) are non-empty; an
empty pattern behaves as the identity here (Python would interleave the
replacement, a case the code never exercises). -/
def replaceAll (pat rep : Str) : Str → Str
  | [] => []
  | c :: rest =>
    if h : pat ≠ [] ∧ pat.isPrefixOf (c :: rest) then
      rep ++ replaceAll pat rep ((c :: rest).drop pat.length)
    else
      c :: replaceAll pat rep rest
termination_by s => s.length
decreasing_by
· simp only [List.length_drop, List.length_cons]
  have h1 : 0 < pat.length := List.length_pos.mpr h.1
  omega
· simp only [List.length_cons]
  omega

/-- Embedding of the Python builtin `str.split` on a non-empty separator:
the list of fragments between non-overlapping left-to-right occurrences of
the separator. -/
def pySplit (pat : Str) : Str → List Str
  | [] => [[]]
  | c :: rest =>
    if h : pat ≠ [] ∧ pat.isPrefixOf (c :: rest) then
      [] :: pySplit pat ((c :: rest).drop pat.length)
    else
      match pySplit pat rest with
      | [] => [[c]]
      | t :: ts => (c :: t) :: ts
termination_by s => s.length
decreasing_by
· simp only [List.length_drop, List.length_cons]
  have h1 : 0 < pat.length := List.length_pos.mpr h.1
  omega
· simp only [List.length_cons]
  omega

/-- Embedding of the Python builtin `sep.join`. -/
def pyJoin (sep : Str) : List Str → Str
  | [] => []
  | [x] => x
  | x :: y :: rest => x ++ sep ++ pyJoin sep (y :: rest)

/-- Decimal string form of a natural-number test id (`str(test_id)`). -/
def decStr (n : ℕ) : Str :=
  Nat.toDigits 10 n

/-- Embedding of `make_command_string` produced by
`tune_conf._create_command_function` (tune_conf.py lines 81-90): replace
`%%ID%%` by the decimal test id, then for each variable/value pair of the
valuation, in order, replace every occurrence of `%<name>%` by the value's
string form. -/
def make_command_string (template : Str) (test_id : ℕ) (var_dict : List (Str × Str)) : Str :=
  var_dict.foldl
    (fun command p => replaceAll ('%' :: p.1 ++ ['%']) p.2 command)
    (replaceAll "%%ID%%".toList (decStr test_id) template)

/-- Valuations: Python dicts from variable name to chosen value, modelled
as key/value association lists in insertion order with unique keys. -/
abbrev Valuation := List (Str × Str)

/-- Python `d[k]` lookup (as an option): value of the first pair whose key
matches. -/
def dictLookup (d : Valuation) (k : Str) : Option Str :=
  (d.find? (fun p => p.1 == k)).map (·.2)

/-- Python `d[k] = v` on a dict: update the existing entry in place (its
position is kept), or append a new entry. -/
def dictSet (d : Valuation) (k v : Str) : Valuation :=
  if d.any (fun p => p.1 == k) then
    d.map (fun p => if p.1 == k then (k, v) else p)
  else
    d ++ [(k, v)]

/-- Python `==` on dicts: same keys with the same values, order
irrelevant. -/
def dictEqb (d₁ d₂ : Valuation) : Bool :=
  d₁.all (fun p => dictLookup d₂ p.1 == some p.2) &&
  d₂.all (fun p => dictLookup d₁ p.1 == some p.2)

/-- One step of the importance-sweep accumulation (tune.py lines 296-297):
`if test_config not in tests: tests.append(test_config)`. -/
def addTest (tests : List Valuation) (t : Valuation) : List Valuation :=
  if tests.any (fun u => dictEqb u t) then tests else tests ++ [t]

/-- Folding `addTest` over a list of candidates. -/
def addTests (tests : List Valuation) (cands : List Valuation) : List Valuation :=
  cands.foldl addTest tests

/-- Embedding of the candidate-list construction in
`tune._run_parameter_importance` (tune.py lines 288-298): for each declared
variable (the flattened variable-tree list) and each value in its domain,
take a copy of the optimal valuation with that variable set to that value,
appending it unless an equal valuation was already collected. -/
def importance_tests (vars_list : List Str) (poss_values : Str → List Str)
    (optimal_valuation : Valuation) : List Valuation :=
  vars_list.foldl
    (fun tests var =>
      (poss_values var).foldl
        (fun ts val => addTest ts (dictSet optimal_valuation var val)) tests)
    []

/-- Comparison used by Python `sorted` on `dict.items()` tuples:
lexicographic on the (key, value) pair. -/
def pairLe (a b : Str × Str) : Prop :=
  a.1 < b.1 ∨ (a.1 = b.1 ∧ a.2 ≤ b.2)

instance : DecidableRel pairLe := fun a b =>
  decidable_of_iff (a.1 < b.1 ∨ (a.1 = b.1 ∧ a.2 ≤ b.2)) Iff.rfl

instance : IsTotal (Str × Str) pairLe := by
  constructor
  intro a b
  rcases lt_trichotomy a.1 b.1 with h | h | h
  · exact Or.inl (Or.inl h)
  · rcases le_total a.2 b.2 with h2 | h2
    · exact Or.inl (Or.inr ⟨h, h2⟩)
    · exact Or.inr (Or.inr ⟨h.symm, h2⟩)
  · exact Or.inr (Or.inl h)

instance : IsTrans (Str × Str) pairLe := by
  constructor
  intro a b c hab hbc
  rcases hab with h1 | ⟨h1, h1v⟩
  · rcases hbc with h2 | ⟨h2, _⟩
    · exact Or.inl (h1.trans h2)
    · exact Or.inl (h2 ▸ h1)
  · rcases hbc with h2 | ⟨h2, h2v⟩
    · exact Or.inl (h1 ▸ h2)
    · exact Or.inr ⟨h1.trans h2, h1v.trans h2v⟩

/-- Embedding of `helpers.strVarVals` (helpers.py lines 25-46): the empty
dict renders as the empty string, otherwise the `"name = value"` entries of
the SORTED item list are joined with the separator. -/
def strVarVals (var_dict : List (Str × Str)) (sep : Str) : Str :=
  if var_dict.isEmpty then []
  else pyJoin sep ((var_dict.insertionSort pairLe).map
    (fun p => p.1 ++ " = ".toList ++ p.2))

/-- Python `str.lower` (ASCII model: `Char.toLower` per character). -/
def pyLower (s : Str) : Str :=
  s.map Char.toLower

/-- Python `str.strip`: remove leading and trailing whitespace. -/
def pyStrip (s : Str) : Str :=
  ((s.dropWhile Char.isWhitespace).reverse.dropWhile Char.isWhitespace).reverse

/-- Python `int(s)` on a digit string (no sign, no whitespace): `none` if
empty or any non-digit. -/
def parseDigits (ds : Str) : Option ℕ :=
  if ds.isEmpty then none
  else if ds.all Char.isDigit then
    some (ds.foldl (fun acc d => 10 * acc + (d.toNat - Char.toNat '0')) 0)
  else none

/-- Python `int(s)` on a string: surrounding whitespace, optional sign,
then digits (digit-group underscores are not modelled; the repository only
feeds plain integers). `none` models the `ValueError`. -/
def pyInt (s : Str) : Option ℤ :=
  match pyStrip s with
  | '+' :: ds => (parseDigits ds).map (fun n => (n : ℤ))
  | '-' :: ds => (parseDigits ds).map (fun n => -(n : ℤ))
  | ds => (parseDigits ds).map (fun n => (n : ℤ))

/-- Python `s.partition(',')`: the part before the first comma, whether a
comma was found, and the part after it. -/
def pyPartitionComma : Str → (Str × Bool × Str)
  | [] => ([], false, [])
  | c :: rest =>
    if c = ',' then ([], true, rest)
    else
      let r := pyPartitionComma rest
      (c :: r.1, r.2.1, r.2.2)

/-- Raw parsed configuration, the post-`configparser` view consumed by
`tune_conf.get_settings`: ordered sections, each an ordered list of
option key/value pairs. -/
structure RawConfig where
  sections : List (Str × List (Str × Str))

/-- Embedding of `RawConfigParser.has_section`. -/
def hasSection (c : RawConfig) (name : Str) : Bool :=
  c.sections.any (fun s => s.1 == name)

/-- Embedding of `RawConfigParser.has_option`. -/
def hasOption (c : RawConfig) (sec opt : Str) : Bool :=
  match c.sections.find? (fun s => s.1 == sec) with
  | none => false
  | some s => s.2.any (fun o => o.1 == opt)

/-- Embedding of `RawConfigParser.get`; total with default `""` because the
code only calls it under a `has_option` guard. -/
def getOption (c : RawConfig) (sec opt : Str) : Str :=
  match c.sections.find? (fun s => s.1 == sec) with
  | none => []
  | some s =>
    match s.2.find? (fun o => o.1 == opt) with
    | none => []
    | some o => o.2

/-- The required section names checked by `_validate_required_sections`
(tune_conf.py line 103). -/
def required_sections : List Str :=
  ["variables".toList, "values".toList, "testing".toList,
   "scoring".toList, "output".toList]

/-- Embedding of `_validate_required_sections` (tune_conf.py lines
96-110): collect the missing required sections and raise if any. -/
def validate_required_sections (c : RawConfig) : Except Unit Unit :=
  let missing_sections := required_sections.filter (fun s => !(hasSection c s))
  if missing_sections.isEmpty then .ok () else .error ()

/-- Embedding of `_validate_variables_section` (tune_conf.py lines
113-126): the `[variables]` section must contain option `variables`. -/
def validate_variables_section (c : RawConfig) : Except Unit Str :=
  if hasOption c "variables".toList "variables".toList then
    .ok (getOption c "variables".toList "variables".toList)
  else .error ()

/-- Embedding of `_validate_and_extract_values` (tune_conf.py lines
129-150): every declared variable needs an entry in `[values]`; each entry
is split on commas and stripped. -/
def validate_and_extract_values (c : RawConfig) (vars_decl : List Str) :
    Except Unit (List (Str × List Str)) :=
  let missing_variables := vars_decl.filter (fun v => !(hasOption c "values".toList v))
  if missing_variables.isEmpty then
    .ok (vars_decl.map (fun v =>
      (v, (pySplit [','] (getOption c "values".toList v)).map pyStrip)))
  else .error ()

/-- Embedding of `_setup_commands` (tune_conf.py lines 153-190): compile
and clean templates are optional, the test template is required. -/
def setup_commands (c : RawConfig) : Except Unit (Option Str × Str × Option Str) :=
  if hasOption c "testing".toList "test".toList then
    .ok ((if hasOption c "testing".toList "compile".toList then
            some (getOption c "testing".toList "compile".toList)
          else none),
         getOption c "testing".toList "test".toList,
         (if hasOption c "testing".toList "clean".toList then
            some (getOption c "testing".toList "clean".toList)
          else none))
  else .error ()

/-- Embedding of the `optimal` handling in `_setup_scoring` (tune_conf.py
lines 207-218), on the raw option value: lowercase it; accept exactly
`max_time`, `min_time`, `max`, `min`; the direction is the first three
characters and `custom_fom` is whether the lowercased setting has length
three. -/
def setup_optimal (raw : Str) : Except Unit (Str × Bool) :=
  if pyLower raw = "max_time".toList ∨ pyLower raw = "min_time".toList ∨
      pyLower raw = "max".toList ∨ pyLower raw = "min".toList then
    .ok ((pyLower raw).take 3, (pyLower raw).length == 3)
  else
    .error ()

/-- Step of `_setup_scoring` after a valid repetition count `r` was parsed
(tune_conf.py lines 232-263): reject `r < 1`; without a comma default to
the `min` aggregator; otherwise look the (lowercased, stripped) tag up in
the aggregator table, rejecting unknown tags. -/
def setup_repeat_value (c : RawConfig) (oc : Str × Bool) (r : ℤ) :
    Except Unit (Str × Bool × ℤ × Str × Agg) :=
  if r < 1 then .error ()
  else if (pyPartitionComma (getOption c "scoring".toList "repeat".toList)).2.1 = false then
    .ok (oc.1, oc.2, r, "min".toList, pyMin)
  else
    match selectAggregator (pyStrip (pyLower (pyPartitionComma
        (getOption c "scoring".toList "repeat".toList)).2.2)) with
    | some aggf => .ok (oc.1, oc.2, r,
        pyStrip (pyLower (pyPartitionComma
          (getOption c "scoring".toList "repeat".toList)).2.2), aggf)
    | none => .error ()

/-- Step of `_setup_scoring` for the optional `repeat` option (tune_conf.py
lines 221-263): absent means one repetition with the `min` aggregator; a
present value is partitioned at the first comma and its first part parsed
as an integer (a parse failure raises). -/
def setup_repeat (c : RawConfig) (oc : Str × Bool) :
    Except Unit (Str × Bool × ℤ × Str × Agg) :=
  if hasOption c "scoring".toList "repeat".toList then
    match pyInt (pyPartitionComma (getOption c "scoring".toList "repeat".toList)).1 with
    | none => .error ()
    | some r => setup_repeat_value c oc r
  else .ok (oc.1, oc.2, 1, "min".toList, pyMin)

/-- Embedding of `_setup_scoring` (tune_conf.py lines 193-265): optional
`optimal` option (default direction `min`, non-custom FOM), then the
`repeat` handling. -/
def setup_scoring (c : RawConfig) : Except Unit (Str × Bool × ℤ × Str × Agg) :=
  match (if hasOption c "scoring".toList "optimal".toList then
      setup_optimal (getOption c "scoring".toList "optimal".toList)
    else .ok ("min".toList, false)) with
  | .error e => .error e
  | .ok oc => setup_repeat c oc

/-- Embedding of `_get_output_settings` (tune_conf.py lines 268-282). -/
def get_output_settings (c : RawConfig) : Option Str × Option Str × Option Str :=
  (if hasOption c "output".toList "log".toList then
      some (getOption c "output".toList "log".toList) else none,
   if hasOption c "output".toList "script".toList then
      some (getOption c "output".toList "script".toList) else none,
   if hasOption c "output".toList "importance".toList then
      some (getOption c "output".toList "importance".toList) else none)

/-- The settings record built by `get_settings` (tune_conf.py lines
334-351).  The `*_mkStr` entries of the Python dict are the closures
`make_command_string template` for the respective templates and are
determined by the stored templates, so only the templates are recorded. -/
structure Settings where
  vartree : Str
  possValues : List (Str × List Str)
  compileT : Option Str
  testT : Str
  cleanT : Option Str
  optimal : Str
  custom_fom : Bool
  repeatN : ℤ
  overall : Str
  aggregator : Agg
  log : Option Str
  script : Option Str
  importance : Option Str

/-- Embedding of `tune_conf.get_settings` (tune_conf.py lines 285-353)
from the parsed configuration onward (file existence and parse errors are
outside this model).  `vartree.get_variables` is code of this repository
that is not under the provided sources — modelled from the spec: the
flattening of the variable-tree declaration into the ordered list of
declared variable names, taken here as an arbitrary function parameter
`get_variables`. -/
def build_settings (c : RawConfig) (var_tree : Str)
    (poss_values : List (Str × List Str)) (cmds : Option Str × Str × Option Str)
    (sc : Str × Bool × ℤ × Str × Agg) : Settings :=
  { vartree := var_tree
    possValues := poss_values
    compileT := cmds.1
    testT := cmds.2.1
    cleanT := cmds.2.2
    optimal := sc.1
    custom_fom := sc.2.1
    repeatN := sc.2.2.1
    overall := sc.2.2.2.1
    aggregator := sc.2.2.2.2
    log := (get_output_settings c).1
    script := (get_output_settings c).2.1
    importance := (get_output_settings c).2.2 }

/-- Tail of `get_settings` after the variables were flattened and their
value domains extracted: commands, then scoring, then the record. -/
def get_settings_after_values (c : RawConfig) (var_tree : Str)
    (poss_values : List (Str × List Str)) : Except Unit Settings :=
  match setup_commands c with
  | .error e => .error e
  | .ok cmds =>
    match setup_scoring c with
    | .error e => .error e
    | .ok sc => .ok (build_settings c var_tree poss_values cmds sc)

/-- Tail of `get_settings` after the variable tree string was read. -/
def get_settings_after_vars (get_variables : Str → List Str) (c : RawConfig)
    (var_tree : Str) : Except Unit Settings :=
  match validate_and_extract_values c (get_variables var_tree) with
  | .error e => .error e
  | .ok poss_values => get_settings_after_values c var_tree poss_values

def get_settings (get_variables : Str → List Str) (c : RawConfig) : Except Unit Settings :=
  match validate_required_sections c with
  | .error e => .error e
  | .ok _ =>
    match validate_variables_section c with
    | .error e => .error e
    | .ok var_tree => get_settings_after_vars get_variables c var_tree

/-- Well-formedness of a parsed configuration for `get_settings`: the
required sections and the `variables` option are present, every declared
variable has a `[values]` entry, `[testing]` has `test`, and the optional
scoring options (when present) are valid. -/
def wellFormedConfig (get_variables : Str → List Str) (c : RawConfig) : Bool :=
  required_sections.all (fun s => hasSection c s) &&
  hasOption c "variables".toList "variables".toList &&
  (get_variables (getOption c "variables".toList "variables".toList)).all
    (fun v => hasOption c "values".toList v) &&
  hasOption c "testing".toList "test".toList &&
  (!(hasOption c "scoring".toList "optimal".toList) ||
    (setup_optimal (getOption c "scoring".toList "optimal".toList)).isOk) &&
  (!(hasOption c "scoring".toList "repeat".toList) ||
    (match pyInt (pyPartitionComma
        (getOption c "scoring".toList "repeat".toList)).1 with
     | none => false
     | some r =>
       decide (1 ≤ r) &&
       ((pyPartitionComma (getOption c "scoring".toList "repeat".toList)).2.1 == false ||
        (selectAggregator (pyStrip (pyLower (pyPartitionComma
          (getOption c "scoring".toList "repeat".toList)).2.2))).isSome)))

/-- A concrete well-formed configuration used as a witness: one variable
`x` over `{1, 2}`, a test command, empty scoring and output sections. -/
def sampleConfig : RawConfig :=
  ⟨[("variables".toList, [("variables".toList, "x".toList)]),
    ("values".toList, [("x".toList, "1, 2".toList)]),
    ("testing".toList, [("test".toList, "run %x%".toList)]),
    ("scoring".toList, []),
    ("output".toList, [])]⟩

/-- Observable writer objects of `output.py`: `sys.stdout`, the null sink
`WriteNull`, a `FileWriter` on a path, and `WriteMult` forwarding to a list
of writers. -/
inductive Writer where
  | stdout
  | nullSink
  | fileSink (path : Str)
  | mult (ws : List Writer)

/-- Module-level writer state of `output.py` (lines 39-41): the three
writers `short`, `full`, `all` (initially `None`). -/
structure OutputState where
  short : Option Writer
  full : Option Writer
  all : Option Writer

/-- Destination of a single write: the screen or a file. -/
inductive Target where
  | screen
  | file (path : Str)
deriving DecidableEq

mutual
/-- Observable effect of `w.write(data)`: the (destination, data) pairs in
emission order.  `WriteMult.write` forwards to each registered writer in
order; `WriteNull.write` ignores the data. -/
def emits : Writer → Str → List (Target × Str)
  | .stdout, data => [(.screen, data)]
  | .nullSink, _ => []
  | .fileSink p, data => [(.file p, data)]
  | .mult ws, data => emitsList ws data

/-- Effect of forwarding one write to each writer of a list in order. -/
def emitsList : List Writer → Str → List (Target × Str)
  | [], _ => []
  | w :: ws, data => emits w data ++ emitsList ws data
end

/-- Embedding of `output.output_production` (output.py lines 273-300):
construct a `FileWriter` (whose `__init__` raises `OSError` when the file
cannot be opened, modelled by the environment `canOpen`); only on success
assign `short := sys.stdout`, `full := the file writer`,
`all := WriteMult(short, full)` and return `True`; the `except` path
returns `False` without touching the module state. -/
def output_production (canOpen : Str → Bool) (log_file : Str) (st : OutputState) :
    Bool × OutputState :=
  if canOpen log_file then
    (true, { short := some .stdout, full := some (.fileSink log_file),
             all := some (.mult [.stdout, .fileSink log_file]) })
  else
    (false, st)

end Autotuning

namespace Autotuning

/-- C1: for every non-empty list of numbers, `med` returns the sole central
element of a sorted rearrangement of the list when the length is odd, and
the average of the two central elements computed with true (rational,
non-truncating) division when the length is even. -/
theorem med_central_of_sorted (l : List ℚ) (h : l ≠ []) :
    ∃ s : List ℚ, s.Perm l ∧ s.Sorted (· ≤ ·) ∧
      med l = some (if s.length % 2 = 1 then s.getD (s.length / 2) 0
        else (s.getD (s.length / 2 - 1) 0 + s.getD (s.length / 2) 0) / 2) := by
  refine ⟨pySorted l, List.perm_insertionSort _ l, List.sorted_insertionSort _ l, ?_⟩
  simp only [med, if_neg h, medCore]

/-- Witness for C1: the even-length list `[1,2,3,4]` is non-empty and
`med` returns the average of the two central elements of its sorted form. -/
theorem med_central_of_sorted_witness :
    ([1, 2, 3, 4] : List ℚ) ≠ [] ∧
      ∃ s : List ℚ, s.Perm [1, 2, 3, 4] ∧ s.Sorted (· ≤ ·) ∧
        med [1, 2, 3, 4] = some (if s.length % 2 = 1 then s.getD (s.length / 2) 0
          else (s.getD (s.length / 2 - 1) 0 + s.getD (s.length / 2) 0) / 2) :=
  ⟨by decide, med_central_of_sorted [1, 2, 3, 4] (by decide)⟩

/-- C2: the aggregator laws for the four aggregators wired by
`_setup_scoring`: `avg [x] = x`; `med [1,2,3,4] = 2.5`; the `'min'` and
`'max'` selections are the built-in min/max of the list; and every one of
the four aggregators maps a single-element list to its element. -/
theorem aggregator_laws :
    (∀ x : ℚ, avg [x] = some x) ∧
    med [1, 2, 3, 4] = some (2.5 : ℚ) ∧
    (selectAggregator "min".toList = some pyMin ∧
      selectAggregator "max".toList = some pyMax ∧
      ∀ l : List ℚ, pyMin l = l.min? ∧ pyMax l = l.max?) ∧
    (∀ x : ℚ, pyMin [x] = some x ∧ pyMax [x] = some x ∧
      med [x] = some x ∧ avg [x] = some x) := by
  refine ⟨?_, ?_, ⟨rfl, rfl, ?_⟩, ?_⟩
  · intro x
    simp [avg, avgCore]
  · have h : ([1, 2, 3, 4] : List ℚ) ≠ [] := by simp
    simp only [med, if_neg h]
    norm_num [medCore, pySorted, List.insertionSort, List.orderedInsert]
  · intro l
    constructor
    · cases l with
      | nil => rfl
      | cons x xs =>
        simp only [pyMin, List.min?]
        congr 1
        apply List.foldl_ext
        intro m v _
        by_cases h : v < m
        · rw [if_pos h, min_def, if_neg (not_le.mpr h)]
        · rw [if_neg h, min_def]
          by_cases h2 : m ≤ v
          · rw [if_pos h2]
          · exact absurd (not_lt.mp h) h2
    · cases l with
      | nil => rfl
      | cons x xs =>
        simp only [pyMax, List.max?]
        congr 1
        apply List.foldl_ext
        intro m v _
        by_cases h : v > m
        · rw [if_pos h, max_def, if_pos (le_of_lt h)]
        · rw [if_neg h, max_def]
          by_cases h2 : m ≤ v
          · rw [if_pos h2]
            exact le_antisymm h2 (not_lt.mp h)
          · rw [if_neg h2]
  · intro x
    refine ⟨rfl, rfl, ?_, ?_⟩
    · simp [med, medCore, pySorted, List.insertionSort, List.orderedInsert]
    · simp [avg, avgCore]

/-- Witness for C2 at `x = 7` and `l = [3,1,2]`. -/
theorem aggregator_laws_witness :
    avg [(7 : ℚ)] = some 7 ∧ pyMin [(3 : ℚ), 1, 2] = List.min? [(3 : ℚ), 1, 2] :=
  ⟨aggregator_laws.1 7, (aggregator_laws.2.2.1.2.2 [3, 1, 2]).1⟩

/-- C10: `med` and `avg` return a value exactly on non-empty all-numeric
lists; they fail with `ValueError` exactly on the empty list and with
`TypeError` exactly on non-list arguments or lists with a non-numeric
element. -/
theorem med_avg_raise_iff (o : PyObj) :
    ((∃ q, medChecked o = .ok q) ↔
      ∃ xs, o = .list xs ∧ xs ≠ [] ∧ ∀ v ∈ xs, v.isNumeric = true) ∧
    (medChecked o = .error .valueError ↔ o = .list []) ∧
    (medChecked o = .error .typeError ↔
      o = .nonList ∨ ∃ xs, o = .list xs ∧ ∃ v ∈ xs, v.isNumeric = false) ∧
    ((∃ q, avgChecked o = .ok q) ↔
      ∃ xs, o = .list xs ∧ xs ≠ [] ∧ ∀ v ∈ xs, v.isNumeric = true) ∧
    (avgChecked o = .error .valueError ↔ o = .list []) ∧
    (avgChecked o = .error .typeError ↔
      o = .nonList ∨ ∃ xs, o = .list xs ∧ ∃ v ∈ xs, v.isNumeric = false) := by
  cases o with
  | nonList => simp [medChecked, avgChecked]
  | list xs =>
    by_cases hxs : xs = []
    · subst hxs
      simp [medChecked, avgChecked]
    · by_cases hbad : xs.any (fun v => !v.isNumeric) = true
      · have hex : ∃ v ∈ xs, v.isNumeric = false := by
          simpa [List.any_eq_true, Bool.not_eq_true'] using hbad
        have hnotall : ¬ ∀ v ∈ xs, v.isNumeric = true := by
          obtain ⟨v, hv, hfv⟩ := hex
          intro hall
          rw [hall v hv] at hfv
          simp at hfv
        simp [medChecked, avgChecked, hxs, hbad, hex, hnotall]
      · have hall : ∀ v ∈ xs, v.isNumeric = true := by
          intro v hv
          rcases Bool.eq_false_or_eq_true (v.isNumeric) with ht | hf
          · exact ht
          · exact absurd (List.any_eq_true.mpr ⟨v, hv, by simp [hf]⟩) hbad
        have hnoex : ¬ ∃ v ∈ xs, v.isNumeric = false := by
          rintro ⟨v, hv, hfv⟩
          rw [hall v hv] at hfv
          simp at hfv
        simp [medChecked, avgChecked, hxs, hbad, hnoex]
        exact hall

/-- Witness for C10 at a one-element numeric list and at the empty list. -/
theorem med_avg_raise_iff_witness :
    (∃ q, medChecked (.list [.num 1]) = .ok q) ∧
      avgChecked (.list []) = .error .valueError :=
  ⟨(med_avg_raise_iff (.list [.num 1])).1.mpr ⟨[.num 1], rfl, by decide, by decide⟩,
   (med_avg_raise_iff (.list [])).2.2.2.2.1.mpr rfl⟩

/-- Interleaving lemma: mapping and flat-mapping a list separately is a
permutation of flat-mapping the cons of both. -/
theorem map_append_flatMap_perm {β γ : Type} (l : List β) (g : β → γ) (h : β → List γ) :
    (l.map g ++ l.flatMap h).Perm (l.flatMap fun b => g b :: h b) := by
  induction l with
  | nil => simp
  | cons b u ih =>
    simp only [List.map_cons, List.flatMap_cons, List.cons_append]
    refine List.Perm.cons _ ?_
    have h1 : (u.map g ++ (h b ++ u.flatMap h)).Perm (h b ++ (u.map g ++ u.flatMap h)) := by
      rw [← List.append_assoc, ← List.append_assoc]
      exact List.Perm.append_right _ List.perm_append_comm
    exact h1.trans (List.Perm.append_left _ ih)

/-- Exchange lemma: a double loop producing `f a b` for `a` in `l₁`
(outer) and `b` in `l₂` (inner) is a permutation of the loop with the two
levels swapped. -/
theorem flatMap_map_swap_perm {α β γ : Type} (l₁ : List α) (l₂ : List β) (f : α → β → γ) :
    (l₁.flatMap fun a => l₂.map (f a)).Perm (l₂.flatMap fun b => l₁.map fun a => f a b) := by
  induction l₁ with
  | nil => simp
  | cons a t ih =>
    simp only [List.flatMap_cons, List.map_cons]
    exact (List.Perm.append_left _ ih).trans
      (map_append_flatMap_perm l₂ (f a) (fun b => t.map fun a' => f a' b))

/-- The legacy fold consumes a trailing sublist as one outer loop over its
items. -/
theorem crossproductCore_snoc {α : Type} (M : List (List α)) (x : List α) :
    crossproductCore (M ++ [x]) =
      x.flatMap (fun item => (crossproductCore M).map (fun e => e ++ [item])) := by
  simp [crossproductCore, List.foldl_append]

/-- Mapping into singleton lists and flattening is just mapping. -/
theorem flatMap_singleton_map {α β : Type} (l : List α) (f : α → β) :
    (l.flatMap fun a => [f a]) = l.map f := by
  induction l with
  | nil => rfl
  | cons a t ih => simp [List.flatMap_cons, ih]

/-- The itertools product consumes a trailing sublist as one inner loop
over its items. -/
theorem crossproduct_itertools_snoc {α : Type} (M : List (List α)) (x : List α) :
    crossproduct_itertools (M ++ [x]) =
      (crossproduct_itertools M).flatMap (fun s => x.map (fun item => s ++ [item])) := by
  induction M with
  | nil => simp [crossproduct_itertools, flatMap_singleton_map]
  | cons y M ih =>
    simp only [List.cons_append, crossproduct_itertools, List.foldr_cons] at ih ⊢
    rw [ih]
    simp [List.map_flatMap, List.flatMap_map, List.flatMap_assoc, List.map_map,
      Function.comp_def]

/-- The legacy fold and the itertools product agree up to permutation. -/
theorem crossproductCore_perm_itertools {α : Type} (L : List (List α)) :
    (crossproductCore L).Perm (crossproduct_itertools L) := by
  induction L using List.reverseRecOn with
  | nil => exact List.Perm.refl _
  | append_singleton M x ih =>
    rw [crossproductCore_snoc, crossproduct_itertools_snoc]
    exact (flatMap_map_swap_perm x (crossproductCore M) (fun item e => e ++ [item])).trans
      (List.Perm.flatMap_right _ ih)

/-- C8 (amended): for every list of non-empty lists, the legacy
`crossproduct` succeeds and returns the same combinations as
`crossproduct_itertools` up to order (a permutation), not the identical
list. -/
theorem crossproduct_perm_crossproduct_itertools {α : Type} (L : List (List α))
    (h : ∀ l ∈ L, l ≠ []) :
    ∃ res, crossproduct L = .ok res ∧ res.Perm (crossproduct_itertools L) := by
  by_cases hL : L = []
  · subst hL
    exact ⟨[[]], rfl, List.Perm.refl _⟩
  · have hne : L.isEmpty = false := List.isEmpty_eq_false.mpr hL
    have hany : L.any (fun sub => sub.isEmpty) = false := by
      rw [List.any_eq_false]
      intro sub hsub
      simp [List.isEmpty_iff, h sub hsub]
    refine ⟨crossproductCore L, ?_, crossproductCore_perm_itertools L⟩
    simp [crossproduct, hne, hany]

/-- Witness for C8 at `[[1,2],[3,4]]`. -/
theorem crossproduct_perm_crossproduct_itertools_witness :
    (∀ l ∈ [[1, 2], [3, 4]], l ≠ ([] : List ℕ)) ∧
      ∃ res, crossproduct [[1, 2], [3, 4]] = .ok res ∧
        res.Perm (crossproduct_itertools [[(1 : ℕ), 2], [3, 4]]) :=
  ⟨by decide, crossproduct_perm_crossproduct_itertools [[1, 2], [3, 4]] (by decide)⟩

/-- Counterexample for C8 as stated: on `[[1,2],[3,4]]` the two
implementations produce the same combinations in different orders, so they
are not an exact behavioural match. -/
theorem crossproduct_ne_crossproduct_itertools :
    crossproduct [[1, 2], [3, 4]] = .ok [[1, 3], [2, 3], [1, 4], [2, 4]] ∧
    crossproduct_itertools [[(1 : ℕ), 2], [3, 4]] = [[1, 3], [1, 4], [2, 3], [2, 4]] ∧
    ([[1, 3], [2, 3], [1, 4], [2, 4]] : List (List ℕ)) ≠ [[1, 3], [1, 4], [2, 3], [2, 4]] :=
  ⟨rfl, rfl, by decide⟩

/-- Splitting never produces an empty fragment list. -/
theorem pySplit_ne_nil (pat s : Str) : pySplit pat s ≠ [] := by
  cases s with
  | nil => simp [pySplit]
  | cons c rest =>
    rw [pySplit]
    split
    · simp
    · split <;> simp

/-- Replacing every occurrence of a pattern is the same as splitting on the
pattern and joining the fragments with the replacement (the Python identity
`s.replace(old, new) == new.join(s.split(old))`). -/
theorem replaceAll_eq_join_split (pat rep s : Str) :
    replaceAll pat rep s = pyJoin rep (pySplit pat s) := by
  have H : ∀ n (s : Str), s.length ≤ n →
      replaceAll pat rep s = pyJoin rep (pySplit pat s) := by
    intro n
    induction n with
    | zero =>
      intro s hs
      have hnil : s = [] := by
        cases s with
        | nil => rfl
        | cons c r => simp at hs
      subst hnil
      simp [replaceAll, pySplit, pyJoin]
    | succ n ih =>
      intro s hs
      cases s with
      | nil => simp [replaceAll, pySplit, pyJoin]
      | cons c rest =>
        by_cases h : pat ≠ [] ∧ pat.isPrefixOf (c :: rest) = true
        · have hlen : ((c :: rest).drop pat.length).length ≤ n := by
            have h1 : 0 < pat.length := List.length_pos.mpr h.1
            simp only [List.length_drop, List.length_cons]
            simp only [List.length_cons] at hs
            omega
          obtain ⟨t, ts, hL⟩ : ∃ t ts,
              pySplit pat ((c :: rest).drop pat.length) = t :: ts := by
            cases hE : pySplit pat ((c :: rest).drop pat.length) with
            | nil => exact absurd hE (pySplit_ne_nil _ _)
            | cons t ts => exact ⟨t, ts, rfl⟩
          rw [replaceAll, dif_pos h, pySplit, dif_pos h, hL, ih _ hlen, hL]
          simp [pyJoin]
        · have hlen : rest.length ≤ n := by
            simp only [List.length_cons] at hs
            omega
          obtain ⟨t, ts, hL⟩ : ∃ t ts, pySplit pat rest = t :: ts := by
            cases hE : pySplit pat rest with
            | nil => exact absurd hE (pySplit_ne_nil _ _)
            | cons t ts => exact ⟨t, ts, rfl⟩
          rw [replaceAll, dif_neg h, pySplit, dif_neg h, hL, ih _ hlen, hL]
          cases ts with
          | nil => simp [pyJoin]
          | cons u us => simp [pyJoin]
  exact H s.length s le_rfl

/-- C3: the rendered command equals the template with every occurrence of
`%%ID%%` replaced by the decimal test id and then, for every variable of the
valuation in order, every occurrence of `%<name>%` replaced by the value's
string form — "every occurrence replaced" being expressed by the split/join
formulation. -/
theorem make_command_string_substitutes (template : Str) (test_id : ℕ)
    (var_dict : List (Str × Str)) :
    make_command_string template test_id var_dict =
      var_dict.foldl
        (fun command p => pyJoin p.2 (pySplit ('%' :: p.1 ++ ['%']) command))
        (pyJoin (decStr test_id) (pySplit "%%ID%%".toList template)) := by
  unfold make_command_string
  rw [replaceAll_eq_join_split]
  exact List.foldl_ext _ _ _ (fun a b _ => replaceAll_eq_join_split _ _ _)

/-- C7 (amended): `strVarVals` renders the `"name = value"` entries of a
SORTED permutation of the valuation (ascending lexicographic item order),
joined by the separator — not the valuation's own insertion order. -/
theorem strVarVals_sorted_render (d : List (Str × Str)) (sep : Str) :
    ∃ s, s.Perm d ∧ List.Sorted pairLe s ∧
      strVarVals d sep = pyJoin sep (s.map (fun p => p.1 ++ " = ".toList ++ p.2)) := by
  refine ⟨d.insertionSort pairLe, List.perm_insertionSort _ _,
    List.sorted_insertionSort _ _, ?_⟩
  by_cases hd : d = []
  · subst hd
    rfl
  · have hne : d.isEmpty = false := List.isEmpty_eq_false.mpr hd
    simp [strVarVals, hne]

/-- Folding the dedup-append over a concatenation processes the two parts
in sequence. -/
theorem addTests_append (ts c₁ c₂ : List Valuation) :
    addTests ts (c₁ ++ c₂) = addTests (addTests ts c₁) c₂ := by
  simp [addTests, List.foldl_append]

/-- The double loop of the importance sweep is the dedup-append fold over
the flat candidate list. -/
theorem importance_tests_eq_addTests (vars_list : List Str)
    (poss_values : Str → List Str) (opt : Valuation) :
    importance_tests vars_list poss_values opt =
      addTests [] (vars_list.flatMap
        (fun var => (poss_values var).map (dictSet opt var))) := by
  suffices h : ∀ init, vars_list.foldl
      (fun tests var => (poss_values var).foldl
        (fun ts val => addTest ts (dictSet opt var val)) tests) init =
      addTests init (vars_list.flatMap
        (fun var => (poss_values var).map (dictSet opt var))) from h []
  intro init
  induction vars_list generalizing init with
  | nil => rfl
  | cons v vs ih =>
    simp only [List.foldl_cons, List.flatMap_cons]
    rw [addTests_append, ih]
    congr 1
    rw [addTests, List.foldl_map]

/-- Everything collected by the fold came from the initial accumulator or
from the candidate list. -/
theorem mem_addTests (cs : List Valuation) :
    ∀ (ts : List Valuation) (t : Valuation), t ∈ addTests ts cs → t ∈ ts ∨ t ∈ cs := by
  induction cs with
  | nil => intro ts t ht; exact Or.inl ht
  | cons c cs ih =>
    intro ts t ht
    rcases ih (addTest ts c) t ht with h | h
    · unfold addTest at h
      by_cases hg : ts.any (fun u => dictEqb u c) = true
      · rw [if_pos hg] at h
        exact Or.inl h
      · rw [if_neg hg] at h
        rcases List.mem_append.mp h with h2 | h2
        · exact Or.inl h2
        · exact Or.inr (by simp [List.mem_singleton.mp h2])
    · exact Or.inr (List.mem_cons_of_mem _ h)

/-- The fold never drops what is already in the accumulator. -/
theorem subset_addTests (cs : List Valuation) :
    ∀ ts : List Valuation, ts ⊆ addTests ts cs := by
  induction cs with
  | nil => intro ts t ht; exact ht
  | cons c cs ih =>
    intro ts t ht
    apply ih (addTest ts c)
    unfold addTest
    split
    · exact ht
    · exact List.mem_append_left _ ht

/-- Every candidate is represented in the fold's result, up to dict
equality (given that dict equality is reflexive at that candidate). -/
theorem exists_eqb_addTests (cs : List Valuation) :
    ∀ (ts : List Valuation) (c : Valuation), c ∈ cs → dictEqb c c = true →
      ∃ t ∈ addTests ts cs, dictEqb t c = true := by
  induction cs with
  | nil => intro ts c hc _; exact absurd hc (List.not_mem_nil c)
  | cons c0 cs ih =>
    intro ts c hc hrefl
    rcases List.mem_cons.mp hc with rfl | hc'
    · by_cases hg : ts.any (fun u => dictEqb u c) = true
      · obtain ⟨u, hu, hub⟩ := List.any_eq_true.mp hg
        refine ⟨u, subset_addTests cs (addTest ts c) ?_, hub⟩
        unfold addTest
        rw [if_pos hg]
        exact hu
      · refine ⟨c, subset_addTests cs (addTest ts c) ?_, hrefl⟩
        unfold addTest
        rw [if_neg hg]
        exact List.mem_append_right _ (List.mem_singleton.mpr rfl)
    · exact ih (addTest ts c0) c hc' hrefl

/-- The fold keeps the accumulator free of dict-equal duplicates. -/
theorem pairwise_addTests (cs : List Valuation) :
    ∀ ts : List Valuation, ts.Pairwise (fun a b => dictEqb a b = false) →
      (addTests ts cs).Pairwise (fun a b => dictEqb a b = false) := by
  induction cs with
  | nil => intro ts h; exact h
  | cons c cs ih =>
    intro ts h
    apply ih
    unfold addTest
    by_cases hg : ts.any (fun u => dictEqb u c) = true
    · rw [if_pos hg]
      exact h
    · rw [if_neg hg]
      rw [List.pairwise_append]
      refine ⟨h, List.pairwise_singleton _ _, ?_⟩
      intro a ha b hb
      rw [List.mem_singleton.mp hb]
      have hg' : ts.any (fun u => dictEqb u c) = false := Bool.eq_false_iff.mpr hg
      exact Bool.eq_false_iff.mpr (List.any_eq_false.mp hg' a ha)

/-- Dict lookup of a present key finds its value, when keys are unique. -/
theorem dictLookup_self {t : Valuation} (hnd : (t.map Prod.fst).Nodup) :
    ∀ p ∈ t, dictLookup t p.1 = some p.2 := by
  induction t with
  | nil => intro p hp; exact absurd hp (List.not_mem_nil p)
  | cons q t ih =>
    intro p hp
    rw [List.map_cons, List.nodup_cons] at hnd
    rcases List.mem_cons.mp hp with rfl | hp'
    · unfold dictLookup
      rw [List.find?_cons, beq_self_eq_true p.1]
      rfl
    · have hne : ¬ (q.1 == p.1) = true := by
        intro hbe
        exact hnd.1 (eq_of_beq hbe ▸ List.mem_map_of_mem Prod.fst hp')
      unfold dictLookup
      have hf : (q.1 == p.1) = false := Bool.eq_false_iff.mpr hne
      rw [List.find?_cons, hf]
      exact ih hnd.2 p hp'

/-- Dict equality is reflexive on unique-keyed valuations. -/
theorem dictEqb_refl {t : Valuation} (hnd : (t.map Prod.fst).Nodup) :
    dictEqb t t = true := by
  unfold dictEqb
  rw [Bool.and_eq_true]
  constructor <;>
  · rw [List.all_eq_true]
    intro p hp
    exact beq_iff_eq.mpr (dictLookup_self hnd p hp)

/-- Updating an existing key in place does not change the key list. -/
theorem map_fst_update (t : Valuation) (k v : Str) :
    (t.map (fun p => if p.1 == k then (k, v) else p)).map Prod.fst = t.map Prod.fst := by
  induction t with
  | nil => rfl
  | cons p t ih =>
    by_cases hb : (p.1 == k) = true
    · simp only [List.map_cons, if_pos hb]
      rw [show p.1 = k from eq_of_beq hb, ih]
    · simp only [List.map_cons, if_neg hb]
      rw [ih]

/-- Setting a key on a unique-keyed valuation keeps the keys unique. -/
theorem keys_dictSet_nodup {opt : Valuation} (hnd : (opt.map Prod.fst).Nodup)
    (k v : Str) : ((dictSet opt k v).map Prod.fst).Nodup := by
  unfold dictSet
  split
  · rw [map_fst_update]
    exact hnd
  · rename_i hg
    rw [List.map_append]
    refine List.Nodup.append hnd (List.nodup_singleton k) ?_
    rw [show ([(k, v)] : Valuation).map Prod.fst = [k] from rfl]
    rw [List.disjoint_singleton]
    intro hk
    rcases List.mem_map.mp hk with ⟨p, hp, hpk⟩
    exact hg (List.any_eq_true.mpr ⟨p, hp, beq_iff_eq.mpr hpk⟩)

/-- C4 (amended): for every unique-keyed optimum, the importance-sweep
candidate list consists, for each DECLARED variable (the flattened
variable-tree list, not only the variables active in the optimum) and for
each value in that variable's domain, of exactly the valuation equal to the
optimum with that one variable set to that value, duplicates removed: every
collected candidate is of that form, every such candidate is represented up
to dict equality, and no two collected candidates are dict-equal. -/
theorem importance_tests_spec (vars_list : List Str) (poss_values : Str → List Str)
    (opt : Valuation) (hopt : (opt.map Prod.fst).Nodup) :
    (∀ t ∈ importance_tests vars_list poss_values opt,
        ∃ var ∈ vars_list, ∃ val ∈ poss_values var, t = dictSet opt var val) ∧
    (∀ var ∈ vars_list, ∀ val ∈ poss_values var,
        ∃ t ∈ importance_tests vars_list poss_values opt,
          dictEqb t (dictSet opt var val) = true) ∧
    (importance_tests vars_list poss_values opt).Pairwise
      (fun a b => dictEqb a b = false) := by
  rw [importance_tests_eq_addTests]
  refine ⟨?_, ?_, ?_⟩
  · intro t ht
    rcases mem_addTests _ _ t ht with h | h
    · exact absurd h (List.not_mem_nil t)
    · rcases List.mem_flatMap.mp h with ⟨var, hvar, hm⟩
      rcases List.mem_map.mp hm with ⟨val, hval, rfl⟩
      exact ⟨var, hvar, val, hval, rfl⟩
  · intro var hvar val hval
    have hc : dictSet opt var val ∈ vars_list.flatMap
        (fun var => (poss_values var).map (dictSet opt var)) :=
      List.mem_flatMap.mpr ⟨var, hvar, List.mem_map.mpr ⟨val, hval, rfl⟩⟩
    exact exists_eqb_addTests _ [] _ hc (dictEqb_refl (keys_dictSet_nodup hopt var val))
  · exact pairwise_addTests _ [] List.Pairwise.nil


/-- Witness for C4 at one declared variable with a one-value domain and the
empty optimum. -/
theorem importance_tests_spec_witness :
    ((([] : Valuation).map Prod.fst).Nodup) ∧
      ∀ var ∈ ["a".toList], ∀ val ∈ (fun _ : Str => ["0".toList]) var,
        ∃ t ∈ importance_tests ["a".toList] (fun _ => ["0".toList]) [],
          dictEqb t (dictSet [] var val) = true :=
  ⟨List.nodup_nil,
   (importance_tests_spec ["a".toList] (fun _ => ["0".toList]) [] List.nodup_nil).2.1⟩

/-- Counterexample for C4 as stated: with declared variables `a`, `b` but
an optimum in which only `a` is active, the sweep also submits the
valuation that ADDS the inactive variable `b`, which is not an override of
any ACTIVE variable of the optimum. -/
theorem importance_tests_counterexample :
    ∃ t ∈ importance_tests ["a".toList, "b".toList]
        (fun v => if v == "a".toList then ["0".toList, "1".toList]
          else if v == "b".toList then ["0".toList] else [])
        [("a".toList, "0".toList)],
      ¬ ∃ var ∈ ([("a".toList, "0".toList)] : Valuation).map Prod.fst,
          ∃ val ∈ (fun v => if v == "a".toList then ["0".toList, "1".toList]
            else if v == "b".toList then ["0".toList] else []) var,
            dictEqb t (dictSet [("a".toList, "0".toList)] var val) = true := by
  decide

/-- Counterexample for C7 as stated: for the valuation inserted in order
`b` then `a`, the rendering is NOT the insertion-order join — the code
sorts the items, so `a` is printed first. -/
theorem strVarVals_not_insertion_order :
    strVarVals [("b".toList, "1".toList), ("a".toList, "2".toList)] ", ".toList ≠
      pyJoin ", ".toList
        ([("b".toList, "1".toList), ("a".toList, "2".toList)].map
          (fun p => p.1 ++ " = ".toList ++ p.2)) ∧
    strVarVals [("b".toList, "1".toList), ("a".toList, "2".toList)] ", ".toList =
      "a = 2, b = 1".toList := by
  constructor
  · decide
  · decide

/-- Success of an `Except` computation is existence of an `ok` result. -/
theorem except_isOk_iff {ε α : Type} (e : Except ε α) : e.isOk = true ↔ ∃ a, e = .ok a := by
  cases e <;> simp [Except.isOk, Except.toBool]

/-- A missing required section makes `_validate_required_sections` raise. -/
theorem validate_required_sections_error (c : RawConfig)
    (h : required_sections.any (fun s => !(hasSection c s)) = true) :
    validate_required_sections c = .error () := by
  obtain ⟨s, hs, hneg⟩ := List.any_eq_true.mp h
  have h' : ¬(((required_sections.filter (fun s => !(hasSection c s))).isEmpty) = true) := by
    rw [List.isEmpty_iff]
    intro hEmpty
    have hmem : s ∈ required_sections.filter (fun s => !(hasSection c s)) :=
      List.mem_filter.mpr ⟨hs, hneg⟩
    rw [hEmpty] at hmem
    exact List.not_mem_nil s hmem
  unfold validate_required_sections
  rw [if_neg h']

/-- A missing `test` option makes `_setup_commands` raise. -/
theorem setup_commands_error (c : RawConfig)
    (h : hasOption c "testing".toList "test".toList = false) :
    setup_commands c = .error () := by
  unfold setup_commands
  rw [if_neg (Bool.eq_false_iff.mp h)]

/-- With the `test` option present, `_setup_commands` succeeds with the
three templates. -/
theorem setup_commands_ok (c : RawConfig)
    (h : hasOption c "testing".toList "test".toList = true) :
    setup_commands c = .ok
      ((if hasOption c "testing".toList "compile".toList then
          some (getOption c "testing".toList "compile".toList) else none),
       getOption c "testing".toList "test".toList,
       (if hasOption c "testing".toList "clean".toList then
          some (getOption c "testing".toList "clean".toList) else none)) := by
  unfold setup_commands
  rw [if_pos h]

/-- C5: `get_settings` fails (raising `ConfigurationError`, so no settings
record is produced and no run can start) whenever a required section is
missing, a declared variable has no `[values]` entry, or `[testing]` lacks
`test`; and on a well-formed configuration it returns the full settings
record. -/
theorem get_settings_spec (gv : Str → List Str) (c : RawConfig) :
    (required_sections.any (fun s => !(hasSection c s)) = true →
      (get_settings gv c).isOk = false) ∧
    (∀ v ∈ gv (getOption c "variables".toList "variables".toList),
      hasOption c "values".toList v = false → (get_settings gv c).isOk = false) ∧
    (hasOption c "testing".toList "test".toList = false →
      (get_settings gv c).isOk = false) ∧
    (wellFormedConfig gv c = true → ∃ s, get_settings gv c = .ok s) := by
  refine ⟨?_, ?_, ?_, ?_⟩
  · intro h
    have h1 : get_settings gv c = .error () := by
      unfold get_settings
      rw [validate_required_sections_error c h]
    rw [h1]
    rfl
  · intro v hv hval
    cases hE1 : validate_required_sections c with
    | error e =>
      have h1 : get_settings gv c = .error e := by
        unfold get_settings
        rw [hE1]
      rw [h1]
      rfl
    | ok u =>
      cases hE2 : validate_variables_section c with
      | error e =>
        have h1 : get_settings gv c = .error e := by
          unfold get_settings
          rw [hE1, hE2]
        rw [h1]
        rfl
      | ok vt =>
        have hvt : vt = getOption c "variables".toList "variables".toList := by
          unfold validate_variables_section at hE2
          by_cases hb : hasOption c "variables".toList "variables".toList = true
          · rw [if_pos hb] at hE2
            injection hE2 with h2
            exact h2.symm
          · rw [if_neg hb] at hE2
            exact Except.noConfusion hE2
        subst hvt
        have hstep : get_settings gv c = get_settings_after_vars gv c
            (getOption c "variables".toList "variables".toList) := by
          unfold get_settings
          rw [hE1, hE2]
        cases hE3 : validate_and_extract_values c
            (gv (getOption c "variables".toList "variables".toList)) with
        | error e =>
          have h1 : get_settings_after_vars gv c
              (getOption c "variables".toList "variables".toList) = .error e := by
            unfold get_settings_after_vars
            rw [hE3]
          rw [hstep, h1]
          rfl
        | ok pv =>
          exfalso
          have hvm : v ∈ (gv (getOption c "variables".toList "variables".toList)).filter
              (fun v => !(hasOption c "values".toList v)) :=
            List.mem_filter.mpr ⟨hv, by rw [hval]; rfl⟩
          have hne : ¬((((gv (getOption c "variables".toList "variables".toList)).filter
              (fun v => !(hasOption c "values".toList v))).isEmpty) = true) := by
            rw [List.isEmpty_iff]
            intro hnil
            rw [hnil] at hvm
            exact List.not_mem_nil v hvm
          unfold validate_and_extract_values at hE3
          rw [if_neg hne] at hE3
          exact Except.noConfusion hE3
  · intro h
    cases hE1 : validate_required_sections c with
    | error e =>
      have h1 : get_settings gv c = .error e := by
        unfold get_settings
        rw [hE1]
      rw [h1]
      rfl
    | ok u =>
      cases hE2 : validate_variables_section c with
      | error e =>
        have h1 : get_settings gv c = .error e := by
          unfold get_settings
          rw [hE1, hE2]
        rw [h1]
        rfl
      | ok vt =>
        have hstep : get_settings gv c = get_settings_after_vars gv c vt := by
          unfold get_settings
          rw [hE1, hE2]
        cases hE3 : validate_and_extract_values c (gv vt) with
        | error e =>
          have h1 : get_settings_after_vars gv c vt = .error e := by
            unfold get_settings_after_vars
            rw [hE3]
          rw [hstep, h1]
          rfl
        | ok pv =>
          have h1 : get_settings_after_vars gv c vt =
              get_settings_after_values c vt pv := by
            unfold get_settings_after_vars
            rw [hE3]
          have h2 : get_settings_after_values c vt pv = .error () := by
            unfold get_settings_after_values
            rw [setup_commands_error c h]
          rw [hstep, h1, h2]
          rfl
  · intro hwf
    unfold wellFormedConfig at hwf
    simp only [Bool.and_eq_true] at hwf
    obtain ⟨⟨⟨⟨⟨hA, hB⟩, hC⟩, hD⟩, hE⟩, hF⟩ := hwf
    have h1 : validate_required_sections c = .ok () := by
      have hc : ((required_sections.filter (fun s => !(hasSection c s))).isEmpty = true) := by
        rw [List.isEmpty_iff, List.filter_eq_nil_iff]
        intro s hs
        rw [List.all_eq_true.mp hA s hs]
        simp
      unfold validate_required_sections
      rw [if_pos hc]
    have h2 : validate_variables_section c =
        .ok (getOption c "variables".toList "variables".toList) := by
      unfold validate_variables_section
      rw [if_pos hB]
    have h3 : validate_and_extract_values c
        (gv (getOption c "variables".toList "variables".toList)) =
        .ok ((gv (getOption c "variables".toList "variables".toList)).map (fun v =>
          (v, (pySplit [','] (getOption c "values".toList v)).map pyStrip))) := by
      have hc : (((gv (getOption c "variables".toList "variables".toList)).filter
          (fun v => !(hasOption c "values".toList v))).isEmpty = true) := by
        rw [List.isEmpty_iff, List.filter_eq_nil_iff]
        intro v hv
        rw [List.all_eq_true.mp hC v hv]
        simp
      unfold validate_and_extract_values
      rw [if_pos hc]
    have h5 : ∃ sc, setup_scoring c = .ok sc := by
      have hoc : ∃ oc, (if hasOption c "scoring".toList "optimal".toList then
          setup_optimal (getOption c "scoring".toList "optimal".toList)
        else .ok ("min".toList, false)) = .ok oc := by
        by_cases hb : hasOption c "scoring".toList "optimal".toList = true
        · rw [if_pos hb]
          simp only [hb, Bool.not_true, Bool.false_or] at hE
          exact (except_isOk_iff _).mp hE
        · rw [if_neg hb]
          exact ⟨_, rfl⟩
      obtain ⟨oc, hoc⟩ := hoc
      have hsc : setup_scoring c = setup_repeat c oc := by
        unfold setup_scoring
        rw [hoc]
      rw [hsc]
      by_cases hr : hasOption c "scoring".toList "repeat".toList = true
      · simp only [hr, Bool.not_true, Bool.false_or] at hF
        cases hpi : pyInt (pyPartitionComma
            (getOption c "scoring".toList "repeat".toList)).1 with
        | none =>
          rw [hpi] at hF
          exact absurd hF (by simp)
        | some r =>
          rw [hpi] at hF
          simp only [Bool.and_eq_true] at hF
          have hrv : setup_repeat c oc = setup_repeat_value c oc r := by
            unfold setup_repeat
            rw [if_pos hr, hpi]
          rw [hrv]
          have hr1 : ¬ (r < 1) := not_lt.mpr (of_decide_eq_true hF.1)
          unfold setup_repeat_value
          rw [if_neg hr1]
          by_cases hp2 : (pyPartitionComma
              (getOption c "scoring".toList "repeat".toList)).2.1 = false
          · rw [if_pos hp2]
            exact ⟨_, rfl⟩
          · rw [if_neg hp2]
            have hsome : (selectAggregator (pyStrip (pyLower (pyPartitionComma
                (getOption c "scoring".toList "repeat".toList)).2.2))).isSome = true := by
              have hor := hF.2
              rw [Bool.or_eq_true] at hor
              rcases hor with hfalse | hsome
              · exact absurd (eq_of_beq hfalse) hp2
              · exact hsome
            obtain ⟨aggf, hagg⟩ := Option.isSome_iff_exists.mp hsome
            rw [hagg]
            exact ⟨_, rfl⟩
      · have hrep : setup_repeat c oc = .ok (oc.1, oc.2, 1, "min".toList, pyMin) := by
          unfold setup_repeat
          rw [if_neg hr]
        rw [hrep]
        exact ⟨_, rfl⟩
    obtain ⟨sc, h5⟩ := h5
    have step1 : get_settings gv c = get_settings_after_vars gv c
        (getOption c "variables".toList "variables".toList) := by
      unfold get_settings
      rw [h1, h2]
    have step2 : get_settings_after_vars gv c
        (getOption c "variables".toList "variables".toList) =
        get_settings_after_values c
          (getOption c "variables".toList "variables".toList)
          ((gv (getOption c "variables".toList "variables".toList)).map (fun v =>
            (v, (pySplit [','] (getOption c "values".toList v)).map pyStrip))) := by
      unfold get_settings_after_vars
      rw [h3]
    have step3 : ∃ s, get_settings_after_values c
        (getOption c "variables".toList "variables".toList)
        ((gv (getOption c "variables".toList "variables".toList)).map (fun v =>
          (v, (pySplit [','] (getOption c "values".toList v)).map pyStrip))) = .ok s := by
      unfold get_settings_after_values
      rw [setup_commands_ok c hD, h5]
      exact ⟨_, rfl⟩
    obtain ⟨sfin, hfin⟩ := step3
    exact ⟨sfin, by rw [step1, step2, hfin]⟩

/-- Witness for C5: the concrete `sampleConfig` is well-formed and
`get_settings` succeeds on it. -/
theorem get_settings_spec_witness :
    wellFormedConfig (fun _ => ["x".toList]) sampleConfig = true ∧
      ∃ s, get_settings (fun _ => ["x".toList]) sampleConfig = .ok s :=
  ⟨by decide,
   (get_settings_spec (fun _ => ["x".toList]) sampleConfig).2.2.2 (by decide)⟩

/-- C6: the (lowercased) `optimal` setting is accepted exactly when it is
one of `max_time`, `min_time`, `max`, `min`; on acceptance the direction is
the first three characters of the setting and `custom_fom` holds exactly
when the setting is three characters long — equivalently the `*_time`
variants give a non-custom (wall-clock) FOM and the plain forms a custom
FOM. -/
theorem setup_optimal_spec (raw : Str) :
    ((setup_optimal raw).isOk = true ↔
      (pyLower raw = "max_time".toList ∨ pyLower raw = "min_time".toList ∨
        pyLower raw = "max".toList ∨ pyLower raw = "min".toList)) ∧
    (∀ d fom, setup_optimal raw = .ok (d, fom) →
      d = (pyLower raw).take 3 ∧
      (fom = true ↔ (pyLower raw).length = 3) ∧
      (fom = true ↔ (pyLower raw = "max".toList ∨ pyLower raw = "min".toList)) ∧
      (fom = false ↔ (pyLower raw = "max_time".toList ∨
        pyLower raw = "min_time".toList))) := by
  by_cases hcond : pyLower raw = "max_time".toList ∨ pyLower raw = "min_time".toList ∨
      pyLower raw = "max".toList ∨ pyLower raw = "min".toList
  · constructor
    · constructor
      · intro _
        exact hcond
      · intro _
        unfold setup_optimal
        rw [if_pos hcond]
        rfl
    · intro d fom hok
      unfold setup_optimal at hok
      rw [if_pos hcond] at hok
      injection hok with h1
      have hd : (pyLower raw).take 3 = d := congrArg Prod.fst h1
      have hc : ((pyLower raw).length == 3) = fom := congrArg Prod.snd h1
      refine ⟨hd.symm, ?_, ?_, ?_⟩
      · rw [← hc]
        exact ⟨fun hb => by simpa using of_decide_eq_true (by simpa using hb),
          fun hl => by simp [hl]⟩
      · rw [← hc]
        rcases hcond with h | h | h | h <;> rw [h] <;> decide
      · rw [← hc]
        rcases hcond with h | h | h | h <;> rw [h] <;> decide
  · constructor
    · constructor
      · intro hok
        unfold setup_optimal at hok
        rw [if_neg hcond] at hok
        exact absurd hok (by simp [Except.isOk, Except.toBool])
      · intro h
        exact absurd h hcond
    · intro d fom hok
      unfold setup_optimal at hok
      rw [if_neg hcond] at hok
      exact Except.noConfusion hok

/-- Witness for C6 at the raw settings `max_time` and `min`. -/
theorem setup_optimal_spec_witness :
    (setup_optimal "max_time".toList).isOk = true ∧
      "max".toList = (pyLower "max_time".toList).take 3 :=
  ⟨(setup_optimal_spec "max_time".toList).1.mpr (Or.inl (by decide)),
   ((setup_optimal_spec "max_time".toList).2 "max".toList false rfl).1⟩

/-- C9: `output_production` is atomic on failure: returning `False` leaves
the module writers `short`, `full`, `all` exactly as they were; returning
`True` sets `short` to `sys.stdout`, `full` to a writer on the opened file,
and `all` to a writer forwarding every write to both, in that order. -/
theorem output_production_atomic (canOpen : Str → Bool) (log_file : Str)
    (st : OutputState) :
    ((output_production canOpen log_file st).1 = false →
      (output_production canOpen log_file st).2 = st) ∧
    ((output_production canOpen log_file st).1 = true →
      (output_production canOpen log_file st).2.short = some .stdout ∧
      (output_production canOpen log_file st).2.full = some (.fileSink log_file) ∧
      ∃ w, (output_production canOpen log_file st).2.all = some w ∧
        ∀ data : Str, emits w data =
          emits .stdout data ++ emits (.fileSink log_file) data) := by
  unfold output_production
  by_cases h : canOpen log_file = true
  · rw [if_pos h]
    refine ⟨fun hf => absurd hf (by simp), fun _ => ⟨rfl, rfl, _, rfl, ?_⟩⟩
    intro data
    simp [emits, emitsList]
  · rw [if_neg h]
    exact ⟨fun _ => rfl, fun ht => absurd ht (by simp)⟩

/-- Witness for C9: a failing open leaves an all-`None` state unchanged; a
succeeding open installs `sys.stdout` as `short`. -/
theorem output_production_atomic_witness :
    (output_production (fun _ => false) "log".toList ⟨none, none, none⟩).2 =
      ⟨none, none, none⟩ ∧
    (output_production (fun _ => true) "log".toList ⟨none, none, none⟩).2.short =
      some .stdout :=
  ⟨(output_production_atomic (fun _ => false) "log".toList ⟨none, none, none⟩).1 rfl,
   ((output_production_atomic (fun _ => true) "log".toList ⟨none, none, none⟩).2 rfl).1⟩

end Autotuning
